import Mathlib

set_option autoImplicit false

namespace PhotoWall

/-! Shallow embedding of the thumbnail acquisition and caching subsystem of
    PhotoWall (src/photowall-qt/src/core/ThumbnailProvider.h / .cpp).
    Qt strings are modelled as byte lists (their UTF-8 encodings); QImage is
    modelled as pixel dimensions plus opaque content bytes.  The external
    generation engine (RustBridge) and the Qt image decoders are modelled as
    an environment of uninterpreted functions. -/

/-- A QString / QByteArray, as the list of its UTF-8 bytes. -/
abbrev QStr := List Nat

/-- Bytes of an ASCII string literal. -/
def qstr (s : String) : QStr := s.data.map Char.toNat

/-- Identity of one live ThumbnailResponse object (its address in the C++). -/
abbrev RId := Nat

/-- QSize. -/
structure QSizeM where
  w : Int
  h : Int
deriving DecidableEq, Repr

/-- QSize::isValid(): both dimensions nonnegative. -/
def QSizeM.isValid (s : QSizeM) : Bool := decide (0 ≤ s.w) && decide (0 ≤ s.h)

/-- Default-constructed QSize(), which is invalid. -/
def invalidQSize : QSizeM := ⟨-1, -1⟩

/-- QImage: dimensions plus opaque decoded content. -/
structure QImageM where
  width : Nat
  height : Nat
  bytes : QStr
deriving DecidableEq, Repr

/-- Default-constructed (null) QImage. -/
def nullQImage : QImageM := ⟨0, 0, []⟩

/-- QImageReader::setScaledSize semantics: the decoded image comes out scaled
    to exactly the set size. -/
def scaleTo (sz : QSizeM) (img : QImageM) : QImageM :=
  ⟨sz.w.toNat, sz.h.toNat, img.bytes⟩

/-! ## ImageCache: QCache with unit costs (m_imageCache)

    Entries are kept most-recently-used first.  QCache::insert unlinks any
    existing entry for the key, links the new entry at the front and evicts
    from the least-recently-used end while over capacity; QCache::object
    relinks a found entry to the front; QCache::setMaxCost trims. -/

structure CacheState where
  entries : List (QStr × QImageM)
  maxCost : Nat
deriving DecidableEq, Repr

def emptyCache (cap : Nat) : CacheState := ⟨[], cap⟩

def removeKey (k : QStr) (l : List (QStr × QImageM)) : List (QStr × QImageM) :=
  l.filter (fun e => !(e.1 == k))

/-- QCache::insert with cost 1. -/
def insertC (k : QStr) (v : QImageM) (c : CacheState) : CacheState :=
  { c with entries := ((k, v) :: removeKey k c.entries).take c.maxCost }

/-- The key/value association the cache currently holds. -/
def lookupC (k : QStr) (c : CacheState) : Option QImageM :=
  (c.entries.find? (fun e => e.1 == k)).map Prod.snd

/-- QCache::contains. -/
def containsC (k : QStr) (c : CacheState) : Bool := (lookupC k c).isSome

/-- QCache::object: returns the cached object and refreshes its recency. -/
def objectC (k : QStr) (c : CacheState) : Option QImageM × CacheState :=
  match c.entries.find? (fun e => e.1 == k) with
  | none => (none, c)
  | some e => (some e.2, { c with entries := e :: removeKey k c.entries })

/-- QCache::clear. -/
def clearC (c : CacheState) : CacheState := { c with entries := [] }

/-- QCache::setMaxCost: sets the capacity and trims to it. -/
def setMaxCostC (n : Nat) (c : CacheState) : CacheState :=
  { entries := c.entries.take n, maxCost := n }

/-- The operations the provider performs on its image cache
    (cacheImage / getCachedImage / clearCache / setCacheSize). -/
inductive CacheOp where
  | ins (k : QStr) (v : QImageM)
  | obj (k : QStr)
  | clr
  | setMax (n : Nat)

def applyCacheOp (c : CacheState) : CacheOp → CacheState
  | .ins k v => insertC k v c
  | .obj k => (objectC k c).2
  | .clr => clearC c
  | .setMax n => setMaxCostC n c

def runCacheOps (ops : List CacheOp) (c : CacheState) : CacheState :=
  ops.foldl applyCacheOp c

/-- ThumbnailProvider::DEFAULT_CACHE_SIZE. -/
def DEFAULT_CACHE_SIZE : Nat := 200

/-! ## PendingRequestRegistry (m_pendingRequests : QHash<QString, QSet<ThumbnailResponse*>>)

    An association list from file hash to the waiter set for that hash,
    the waiter set kept as a duplicate-free list in registration order.
    QHash holds at most one entry per key, so the operations touch the
    first matching entry only. -/

abbrev Pending := List (QStr × List RId)

def lookupPending (h : QStr) (p : Pending) : Option (List RId) :=
  (p.find? (fun e => e.1 == h)).map Prod.snd

/-- Replace the value of the (unique) entry for key h. -/
def setPending (h : QStr) (s : List RId) : Pending → Pending
  | [] => []
  | e :: rest => if e.1 == h then (e.1, s) :: rest else e :: setPending h s rest

/-- QHash::erase at the (unique) entry for key h. -/
def erasePending (h : QStr) : Pending → Pending
  | [] => []
  | e :: rest => if e.1 == h then rest else e :: erasePending h rest

/-- ThumbnailProvider::addPendingRequest: m_pendingRequests[fileHash].insert(response). -/
def addPendingL (h : QStr) (r : RId) (p : Pending) : Pending :=
  match lookupPending h p with
  | none => p ++ [(h, [r])]
  | some s => setPending h (if s.contains r then s else s ++ [r]) p

/-- ThumbnailProvider::removePendingRequest: remove the response from the
    waiter set of fileHash; drop the entry if the set becomes empty. -/
def removePendingL (h : QStr) (r : RId) (p : Pending) : Pending :=
  match lookupPending h p with
  | none => p
  | some s =>
    let t := s.erase r
    if t.isEmpty then erasePending h p else setPending h t p

/-! ## The world: provider state, live responses, and the observable effects -/

/-- One ThumbnailResponse object. -/
structure RespState where
  fileHash : QStr
  filePath : QStr
  size : QStr
  requestedSize : QSizeM
  image : QImageM
  errorString : QStr
  finished : Bool
deriving DecidableEq, Repr

/-- External collaborators: RustBridge thumbnail calls and Qt image decoding. -/
structure Env where
  /-- RustBridge::getThumbnailPath (empty when absent). -/
  thumbPath : QStr → QStr → QStr
  /-- QFile::exists. -/
  fileExists : QStr → Bool
  /-- Decode of the file at a path at its natural size (QImageReader::read
      with no scaled size); none when the read fails / yields a null image. -/
  readNatural : QStr → Option QImageM
  /-- QImageReader::errorString for a failed read. -/
  readerError : QStr → QStr
  /-- QByteArray::fromBase64 followed by QImage::loadFromData on placeholder
      payload bytes; none when decoding fails. -/
  decodePlaceholder : QStr → Option QImageM

structure World where
  cache : CacheState
  pending : Pending
  resps : List (RId × RespState)
  /-- Log of entries passed to RustBridge::enqueueThumbnailsBatch,
      as (filePath, fileHash, size) triples. -/
  enqueued : List (QStr × QStr × QStr)
  /-- Log of ThumbnailProvider::cacheImage calls. -/
  cacheWrites : List (QStr × QImageM)
  /-- Log of emit finished() signals. -/
  finishedEvents : List RId
  /-- Log of handleThumbnailReady invocations fanned out by
      notifyThumbnailReady, with their payloads. -/
  callbacks : List (RId × QStr × Bool × QStr × Bool)
deriving DecidableEq, Repr

def initialWorld : World :=
  { cache := emptyCache DEFAULT_CACHE_SIZE, pending := [], resps := []
    enqueued := [], cacheWrites := [], finishedEvents := [], callbacks := [] }

def lookupResp (rid : RId) (w : World) : Option RespState :=
  (w.resps.find? (fun e => e.1 == rid)).map Prod.snd

def updateResp (rid : RId) (f : RespState → RespState) (w : World) : World :=
  { w with resps := w.resps.map (fun e => if e.1 == rid then (e.1, f e.2) else e) }

/-- The cache key "%1/%2".arg(fileHash, size). -/
def cacheKeyOf (h s : QStr) : QStr := h ++ qstr "/" ++ s

/-- ThumbnailProvider::cacheImage. -/
def cacheImageW (key : QStr) (img : QImageM) (w : World) : World :=
  { w with cache := insertC key img w.cache
           cacheWrites := w.cacheWrites ++ [(key, img)] }

/-- ThumbnailProvider::getCachedImage: the cached image, or a null QImage. -/
def getCachedImageW (key : QStr) (w : World) : QImageM × World :=
  let r := objectC key w.cache
  (r.1.getD nullQImage, { w with cache := r.2 })

/-- ThumbnailProvider::hasCachedImage. -/
def hasCachedImageW (key : QStr) (w : World) : Bool := containsC key w.cache

/-- ThumbnailResponse::finishWithImage. -/
def finishWithImage (rid : RId) (img : QImageM) (w : World) : World :=
  match lookupResp rid w with
  | none => w
  | some r =>
    let w1 := updateResp rid (fun q => { q with image := img, finished := true }) w
    let w2 := cacheImageW (cacheKeyOf r.fileHash r.size) img w1
    let w3 := { w2 with pending := removePendingL r.fileHash rid w2.pending }
    { w3 with finishedEvents := w3.finishedEvents ++ [rid] }

/-- ThumbnailResponse::finishWithError. -/
def finishWithError (rid : RId) (err : QStr) (w : World) : World :=
  match lookupResp rid w with
  | none => w
  | some r =>
    let w1 := updateResp rid (fun q => { q with errorString := err, finished := true }) w
    let w2 := { w1 with pending := removePendingL r.fileHash rid w1.pending }
    { w2 with finishedEvents := w2.finishedEvents ++ [rid] }

/-- ThumbnailResponse::loadFromPath: decode with an exact scaled size when the
    requested size is valid, then finish. -/
def loadFromPath (env : Env) (rid : RId) (path : QStr) (w : World) : World :=
  match lookupResp rid w with
  | none => w
  | some r =>
    match env.readNatural path with
    | none => finishWithError rid (env.readerError path) w
    | some nat =>
      finishWithImage rid (if r.requestedSize.isValid then scaleTo r.requestedSize nat else nat) w

/-- ThumbnailResponse::loadFromBase64: decode the placeholder payload (no
    scaling is applied on this path), then finish. -/
def loadFromBase64 (env : Env) (rid : RId) (b64 : QStr) (w : World) : World :=
  match env.decodePlaceholder b64 with
  | some img => finishWithImage rid img w
  | none => finishWithError rid (qstr "Failed to decode base64 image") w

/-- ThumbnailResponse::handleThumbnailReady. -/
def handleThumbnailReady (env : Env) (rid : RId) (path : QStr) (isPlaceholder : Bool)
    (placeholderBase64 : QStr) (useOriginal : Bool) (w : World) : World :=
  match lookupResp rid w with
  | none => w
  | some r =>
    if r.finished then w
    else if isPlaceholder && !placeholderBase64.isEmpty then
      loadFromBase64 env rid placeholderBase64 w
    else if !path.isEmpty then
      loadFromPath env rid path w
    else
      finishWithError rid (qstr "No thumbnail available") w

/-- ThumbnailProvider::notifyThumbnailReady: take the waiter set for the hash,
    erase its registry entry, then invoke handleThumbnailReady on every drained
    waiter with the same payload.  The size argument is not consulted. -/
def notifyThumbnailReady (env : Env) (fileHash size path : QStr) (isPlaceholder : Bool)
    (placeholderBase64 : QStr) (useOriginal : Bool) (w : World) : World :=
  match lookupPending fileHash w.pending with
  | none => w
  | some rids =>
    let w1 := { w with pending := erasePending fileHash w.pending }
    rids.foldl (fun acc rid =>
      handleThumbnailReady env rid path isPlaceholder placeholderBase64 useOriginal
        { acc with callbacks := acc.callbacks ++ [(rid, path, isPlaceholder, placeholderBase64, useOriginal)] })
      w1

def initResp (h fp s : QStr) (rs : QSizeM) : RespState :=
  { fileHash := h, filePath := fp, size := s, requestedSize := rs
    image := nullQImage, errorString := [], finished := false }

/-- ThumbnailResponse::ThumbnailResponse: cache check, disk check, missing
    source, or register-and-enqueue. -/
def mkResponse (env : Env) (rid : RId) (h fp s : QStr) (rs : QSizeM) (w : World) : World :=
  let w0 := { w with resps := w.resps ++ [(rid, initResp h fp s rs)] }
  let key := cacheKeyOf h s
  if hasCachedImageW key w0 then
    let r := getCachedImageW key w0
    let w1 := updateResp rid (fun q => { q with image := r.1, finished := true }) r.2
    { w1 with finishedEvents := w1.finishedEvents ++ [rid] }
  else
    let path := env.thumbPath h s
    if !path.isEmpty && env.fileExists path then
      loadFromPath env rid path w0
    else if fp.isEmpty then
      finishWithError rid (qstr "Missing file path for thumbnail request") w0
    else
      let w1 := { w0 with pending := addPendingL h rid w0.pending }
      { w1 with enqueued := w1.enqueued ++ [(fp, h, s)] }

/-- ThumbnailResponse::~ThumbnailResponse: an unfinished response deregisters
    itself; the object then ceases to exist. -/
def destroyResponse (rid : RId) (w : World) : World :=
  match lookupResp rid w with
  | none => w
  | some r =>
    let w1 := if r.finished then w
              else { w with pending := removePendingL r.fileHash rid w.pending }
    { w1 with resps := w1.resps.filter (fun e => !(e.1 == rid)) }

/-! ## Request token parsing (ThumbnailProvider::requestImageResponse)

    The id has the form fileHash|encodedPath/size: split on the first two
    slashes, take the part before the first slash as hashPart and the part
    after it (up to the next slash) as the size, defaulting to medium; then
    split hashPart at its first pipe and percent-decode the remainder into
    the file path. -/

def isHexDigitB (b : Nat) : Bool :=
  (decide (48 ≤ b) && decide (b ≤ 57)) || (decide (65 ≤ b) && decide (b ≤ 70)) ||
    (decide (97 ≤ b) && decide (b ≤ 102))

def hexVal (b : Nat) : Nat :=
  if 48 ≤ b ∧ b ≤ 57 then b - 48
  else if 65 ≤ b ∧ b ≤ 70 then b - 55
  else if 97 ≤ b ∧ b ≤ 102 then b - 87
  else 0

/-- QUrl::fromPercentEncoding on bytes: a percent followed by two hex digits
    decodes to the corresponding byte; anything else passes through. -/
def percentDecode : QStr → QStr
  | [] => []
  | [c] => [c]
  | [c, a] => [c, a]
  | c :: a :: b :: tail =>
    if c == 37 && isHexDigitB a && isHexDigitB b then
      (hexVal a * 16 + hexVal b) :: percentDecode tail
    else
      c :: percentDecode (a :: b :: tail)

/-- RFC 3986 unreserved bytes, the ones QUrl::toPercentEncoding leaves alone. -/
def isUnreserved (b : Nat) : Bool :=
  (decide (65 ≤ b) && decide (b ≤ 90)) || (decide (97 ≤ b) && decide (b ≤ 122)) ||
    (decide (48 ≤ b) && decide (b ≤ 57)) || (b == 45) || (b == 46) || (b == 95) || (b == 126)

def hexDigit (n : Nat) : Nat := if n < 10 then 48 + n else 55 + n

/-- QUrl::toPercentEncoding on bytes with the default exclusions. -/
def percentEncode : QStr → QStr
  | [] => []
  | b :: rest =>
    (if isUnreserved b then [b] else [37, hexDigit (b / 16), hexDigit (b % 16)]) ++
      percentEncode rest

/-- The parse performed by ThumbnailProvider::requestImageResponse on the
    request id, returning (fileHash, filePath, size) as handed to the
    ThumbnailResponse constructor. -/
def parseImageId (id : QStr) : QStr × QStr × QStr :=
  let seg0 := id.takeWhile (fun c => !(c == 47))
  let rest := id.dropWhile (fun c => !(c == 47))
  let size := match rest with
    | [] => qstr "medium"
    | _ :: r => r.takeWhile (fun c => !(c == 47))
  if seg0.contains 124 then
    (seg0.takeWhile (fun c => !(c == 124)),
     percentDecode ((seg0.dropWhile (fun c => !(c == 124))).tail),
     size)
  else
    (seg0, [], size)

/-- ThumbnailProvider::requestImageResponse: parse the id and construct the
    response. -/
def requestImageResponseW (env : Env) (rid : RId) (id : QStr) (rs : QSizeM) (w : World) : World :=
  let parts := parseImageId id
  mkResponse env rid parts.1 parts.2.1 parts.2.2 rs w

/-! ## Cache lemmas -/

theorem find?_removeKey (k kq : QStr) (l : List (QStr × QImageM)) (hne : kq ≠ k) :
    (removeKey k l).find? (fun e => e.1 == kq) = l.find? (fun e => e.1 == kq) := by
  induction l with
  | nil => rfl
  | cons e rest ih =>
    by_cases he : e.1 = k
    · have h1 : (e.1 == k) = true := beq_iff_eq.mpr he
      have h2 : (e.1 == kq) = false := by
        apply beq_eq_false_iff_ne.mpr
        intro hq
        exact hne (hq ▸ he)
      simp [removeKey, List.filter_cons, h1, List.find?_cons, h2] at *
      exact ih
    · have h1 : (e.1 == k) = false := beq_eq_false_iff_ne.mpr he
      by_cases hq : e.1 = kq
      · have h2 : (e.1 == kq) = true := beq_iff_eq.mpr hq
        simp [removeKey, List.filter_cons, h1, List.find?_cons, h2]
      · have h2 : (e.1 == kq) = false := beq_eq_false_iff_ne.mpr hq
        simp [removeKey, List.filter_cons, h1, List.find?_cons, h2] at *
        exact ih

/-- QCache::object does not change the key/value association. -/
theorem lookupC_objectC (kq k : QStr) (c : CacheState) :
    lookupC kq (objectC k c).2 = lookupC kq c := by
  unfold objectC
  cases hf : c.entries.find? (fun e => e.1 == k) with
  | none => rfl
  | some e =>
    have hek : e.1 = k := by
      have h0 := List.find?_some hf
      simp only [beq_iff_eq] at h0
      exact h0
    by_cases hq : kq = k
    · subst hq
      have h2 : (e.1 == kq) = true := beq_iff_eq.mpr hek
      simp [lookupC, List.find?_cons, h2, hf]
    · have h2 : (e.1 == kq) = false := beq_eq_false_iff_ne.mpr (fun h => hq (h ▸ hek))
      simp [lookupC, List.find?_cons, h2, find?_removeKey k kq c.entries hq]

/-- QCache::object returns exactly the current association. -/
theorem objectC_fst (k : QStr) (c : CacheState) : (objectC k c).1 = lookupC k c := by
  unfold objectC lookupC
  cases hf : c.entries.find? (fun e => e.1 == k) <;> simp

theorem maxCost_objectC (k : QStr) (c : CacheState) : (objectC k c).2.maxCost = c.maxCost := by
  unfold objectC
  cases hf : c.entries.find? (fun e => e.1 == k) <;> simp

theorem length_objectC (k : QStr) (c : CacheState) :
    (objectC k c).2.entries.length ≤ c.entries.length := by
  unfold objectC
  cases hf : c.entries.find? (fun e => e.1 == k) with
  | none => simp
  | some e =>
    have hmem : e ∈ c.entries := List.mem_of_find?_eq_some hf
    have hek : (e.1 == k) = true := by
      have h0 := List.find?_some hf
      simpa using h0
    have hlt0 : (removeKey k c.entries).length < c.entries.length := by
      apply List.length_filter_lt_length_iff_exists.mpr
      exact ⟨e, hmem, by simp [hek]⟩
    simpa using hlt0

/-- Each cache operation keeps the entry count within the capacity. -/
theorem applyCacheOp_bound (c : CacheState) (op : CacheOp)
    (hc : c.entries.length ≤ c.maxCost) :
    (applyCacheOp c op).entries.length ≤ (applyCacheOp c op).maxCost := by
  cases op with
  | ins k v => simpa [applyCacheOp, insertC] using List.length_take_le c.maxCost _
  | obj k =>
    have h1 := length_objectC k c
    have h2 := maxCost_objectC k c
    simp only [applyCacheOp]
    omega
  | clr => simp [applyCacheOp, clearC]
  | setMax n => simpa [applyCacheOp, setMaxCostC] using List.length_take_le n c.entries

/-- The cache bound is an invariant of every operation sequence. -/
theorem runCacheOps_bound (ops : List CacheOp) (c : CacheState)
    (hc : c.entries.length ≤ c.maxCost) :
    (runCacheOps ops c).entries.length ≤ (runCacheOps ops c).maxCost := by
  induction ops generalizing c with
  | nil => exact hc
  | cons op rest ih =>
    simpa [runCacheOps, List.foldl_cons] using ih (applyCacheOp c op) (applyCacheOp_bound c op hc)

theorem take_append_take {α : Type} (n : Nat) (l1 l2 : List α) :
    (l1 ++ l2.take n).take n = (l1 ++ l2).take n := by
  rw [List.take_append_eq_append_take, List.take_append_eq_append_take, List.take_take,
    Nat.min_eq_left (Nat.sub_le n l1.length)]

theorem removeKey_fresh (k : QStr) (l : List (QStr × QImageM))
    (h : ∀ e ∈ l, e.1 ≠ k) : removeKey k l = l := by
  apply List.filter_eq_self.mpr
  intro e he
  simpa using h e he

/-- Folding inserts of fresh pairwise-distinct keys builds the
    most-recent-first list, truncated to capacity. -/
theorem foldl_insertC (keys : List QStr) (f : QStr → QImageM) (c : CacheState)
    (hnd : keys.Nodup) (hfresh : ∀ k ∈ keys, ∀ e ∈ c.entries, e.1 ≠ k)
    (hlen : c.entries.length ≤ c.maxCost) :
    (keys.foldl (fun acc k => insertC k (f k) acc) c).entries
      = ((keys.reverse.map (fun k => (k, f k))) ++ c.entries).take c.maxCost
    ∧ (keys.foldl (fun acc k => insertC k (f k) acc) c).maxCost = c.maxCost := by
  induction keys generalizing c with
  | nil =>
    refine ⟨?_, rfl⟩
    simp [List.take_of_length_le hlen]
  | cons k rest ih =>
    have hk : k ∉ rest := (List.nodup_cons.mp hnd).1
    have hrm : removeKey k c.entries = c.entries :=
      removeKey_fresh k c.entries (fun e he => hfresh k (by simp) e he)
    have hstep : (insertC k (f k) c).entries = ((k, f k) :: c.entries).take c.maxCost := by
      simp [insertC, hrm]
    have hmax : (insertC k (f k) c).maxCost = c.maxCost := rfl
    have hfresh2 : ∀ k2 ∈ rest, ∀ e ∈ (insertC k (f k) c).entries, e.1 ≠ k2 := by
      intro k2 hk2 e he
      rw [hstep] at he
      have he2 : e ∈ (k, f k) :: c.entries := List.mem_of_mem_take he
      rcases List.mem_cons.mp he2 with h1 | h1
      · subst h1
        intro hcon
        exact hk (by rw [show k = k2 from hcon]; exact hk2)
      · exact hfresh k2 (by simp [hk2]) e h1
    have hlen2 : (insertC k (f k) c).entries.length ≤ (insertC k (f k) c).maxCost := by
      rw [hstep, hmax]
      exact List.length_take_le _ _
    have ihr := ih (insertC k (f k) c) (List.nodup_cons.mp hnd).2 hfresh2 hlen2
    constructor
    · rw [List.foldl_cons, ihr.1, hmax, hstep, take_append_take]
      simp [List.append_assoc]
    · rw [List.foldl_cons, ihr.2, hmax]

/-! ## Pending registry lemmas -/

theorem setPending_of_some (h : QStr) (s : List RId) (p : Pending)
    (hl : lookupPending h p = some s) : setPending h s p = p := by
  induction p with
  | nil => simp [lookupPending] at hl
  | cons e rest ih =>
    by_cases he : e.1 = h
    · have h1 : (e.1 == h) = true := beq_iff_eq.mpr he
      have hes : s = e.2 := by
        simp [lookupPending, h1] at hl
        exact hl.symm
      simp [setPending, h1, hes]
    · have h1 : (e.1 == h) = false := beq_eq_false_iff_ne.mpr he
      have hl2 : lookupPending h rest = some s := by
        simp [lookupPending, h1] at hl
        simpa [lookupPending] using hl
      simp [setPending, h1, ih hl2]

theorem setPending_of_none (h : QStr) (s : List RId) (p : Pending)
    (hl : lookupPending h p = none) : setPending h s p = p := by
  induction p with
  | nil => rfl
  | cons e rest ih =>
    by_cases he : e.1 = h
    · have h1 : (e.1 == h) = true := beq_iff_eq.mpr he
      simp [lookupPending, h1] at hl
    · have h1 : (e.1 == h) = false := beq_eq_false_iff_ne.mpr he
      have hl2 : lookupPending h rest = none := by
        simp [lookupPending, h1] at hl
        simpa [lookupPending] using hl
      simp [setPending, h1, ih hl2]

theorem lookupPending_setPending_self (h : QStr) (s : List RId) (p : Pending)
    (hl : (lookupPending h p).isSome) : lookupPending h (setPending h s p) = some s := by
  induction p with
  | nil => simp [lookupPending] at hl
  | cons e rest ih =>
    by_cases he : e.1 = h
    · have h1 : (e.1 == h) = true := beq_iff_eq.mpr he
      simp [setPending, h1, lookupPending]
    · have h1 : (e.1 == h) = false := beq_eq_false_iff_ne.mpr he
      have hl2 : (lookupPending h rest).isSome := by
        simp [lookupPending, h1] at hl
        simpa [lookupPending] using hl
      simp [setPending, h1, lookupPending]
      simpa [lookupPending] using ih hl2

theorem lookupPending_setPending_ne (hq h : QStr) (s : List RId) (p : Pending)
    (hne : hq ≠ h) : lookupPending hq (setPending h s p) = lookupPending hq p := by
  induction p with
  | nil => rfl
  | cons e rest ih =>
    by_cases he : e.1 = h
    · have h1 : (e.1 == h) = true := beq_iff_eq.mpr he
      have h2 : (e.1 == hq) = false := by
        apply beq_eq_false_iff_ne.mpr
        intro hh
        exact hne (by rw [← hh, he])
      simp [setPending, h1, lookupPending, h2]
    · have h1 : (e.1 == h) = false := beq_eq_false_iff_ne.mpr he
      by_cases hq2 : e.1 = hq
      · have h2 : (e.1 == hq) = true := beq_iff_eq.mpr hq2
        simp [setPending, h1, lookupPending, h2]
      · have h2 : (e.1 == hq) = false := beq_eq_false_iff_ne.mpr hq2
        simp [setPending, h1, lookupPending, h2]
        simpa [lookupPending] using ih

theorem lookupPending_erasePending_ne (hq h : QStr) (p : Pending)
    (hne : hq ≠ h) : lookupPending hq (erasePending h p) = lookupPending hq p := by
  induction p with
  | nil => rfl
  | cons e rest ih =>
    by_cases he : e.1 = h
    · have h1 : (e.1 == h) = true := beq_iff_eq.mpr he
      have h2 : (e.1 == hq) = false := by
        apply beq_eq_false_iff_ne.mpr
        intro hh
        exact hne (by rw [← hh, he])
      simp [erasePending, h1, lookupPending, h2]
    · have h1 : (e.1 == h) = false := beq_eq_false_iff_ne.mpr he
      by_cases hq2 : e.1 = hq
      · have h2 : (e.1 == hq) = true := beq_iff_eq.mpr hq2
        simp [erasePending, h1, lookupPending, h2]
      · have h2 : (e.1 == hq) = false := beq_eq_false_iff_ne.mpr hq2
        simp [erasePending, h1, lookupPending, h2]
        simpa [lookupPending] using ih

/-- With duplicate-free keys (the QHash invariant), erasing the entry for a
    hash leaves no entry for that hash. -/
theorem lookupPending_erasePending_self (h : QStr) (p : Pending)
    (hnd : (p.map Prod.fst).Nodup) : lookupPending h (erasePending h p) = none := by
  induction p with
  | nil => rfl
  | cons e rest ih =>
    have hnd0 : (e.1 :: rest.map Prod.fst).Nodup := by simpa using hnd
    have hnd2 := List.nodup_cons.mp hnd0
    by_cases he : e.1 = h
    · have h1 : (e.1 == h) = true := beq_iff_eq.mpr he
      have hnot : ∀ x ∈ rest, ¬ ((x.1 == h) = true) := by
        intro x hx hbx
        have hxh : x.1 = h := beq_iff_eq.mp hbx
        apply hnd2.1
        rw [he, ← hxh]
        exact List.mem_map.mpr ⟨x, hx, rfl⟩
      simp only [erasePending, if_pos h1, lookupPending]
      rw [List.find?_eq_none.mpr (by intro x hx; simpa using hnot x hx)]
      rfl
    · have h1 : (e.1 == h) = false := beq_eq_false_iff_ne.mpr he
      simp [erasePending, h1, lookupPending]
      simpa [lookupPending] using ih hnd2.2

theorem lookupPending_addPendingL_self (h : QStr) (r : RId) (p : Pending) :
    lookupPending h (addPendingL h r p) =
      some (match lookupPending h p with
            | none => [r]
            | some s => if s.contains r then s else s ++ [r]) := by
  cases hl : lookupPending h p with
  | none =>
    have hfn : p.find? (fun e => e.1 == h) = none := by
      simp only [lookupPending] at hl
      exact Option.map_eq_none.mp hl
    simp [addPendingL, hl, lookupPending, List.find?_append, hfn]
  | some s =>
    simp only [addPendingL, hl]
    apply lookupPending_setPending_self
    simp [hl]

/-- Removing a waiter never creates a registry entry. -/
theorem lookupPending_removePendingL_none (hq h : QStr) (r : RId) (p : Pending)
    (hn : lookupPending hq p = none) :
    lookupPending hq (removePendingL h r p) = none := by
  unfold removePendingL
  cases hl : lookupPending h p with
  | none => exact hn
  | some s =>
    have hne : hq ≠ h := by
      intro hh
      rw [hh] at hn
      rw [hn] at hl
      exact Option.noConfusion hl
    by_cases hemp : (s.erase r).isEmpty
    · simpa [hemp, lookupPending_erasePending_ne hq h p hne] using hn
    · simpa [hemp, lookupPending_setPending_ne hq h (s.erase r) p hne] using hn

/-- A removal that targets a waiter not in the registry leaves it unchanged. -/
theorem removePendingL_of_absent (h : QStr) (r : RId) (p : Pending)
    (habs : ∀ s, lookupPending h p = some s → (r ∉ s ∧ s ≠ [])) :
    removePendingL h r p = p := by
  unfold removePendingL
  cases hl : lookupPending h p with
  | none => rfl
  | some s =>
    have hs := habs s hl
    have her : s.erase r = s := List.erase_of_not_mem hs.1
    have hne2 : ¬ (s.isEmpty = true) := by
      cases s with
      | nil => exact absurd rfl hs.2
      | cons a t => simp
    simp only [her]
    rw [if_neg hne2]
    exact setPending_of_some h s p hl

/-! ## World operation lemmas -/

theorem find?_map_update (rid : RId) (f : RespState → RespState) (l : List (RId × RespState)) :
    (l.map (fun e => if e.1 == rid then (e.1, f e.2) else e)).find? (fun e => e.1 == rid)
      = (l.find? (fun e => e.1 == rid)).map (fun e => (e.1, f e.2)) := by
  induction l with
  | nil => rfl
  | cons e rest ih =>
    by_cases he : e.1 = rid
    · have h1 : (e.1 == rid) = true := beq_iff_eq.mpr he
      rw [List.map_cons, if_pos h1, List.find?_cons_of_pos _ (by simpa using h1),
        List.find?_cons_of_pos _ (by simpa using h1)]
      rfl
    · have h1 : (e.1 == rid) = false := beq_eq_false_iff_ne.mpr he
      rw [List.map_cons, if_neg (by simp [h1]), List.find?_cons_of_neg _ (by simp [h1]),
        List.find?_cons_of_neg _ (by simp [h1])]
      exact ih

theorem lookupResp_updateResp_self (rid : RId) (f : RespState → RespState) (w : World) :
    lookupResp rid (updateResp rid f w) = (lookupResp rid w).map f := by
  unfold lookupResp updateResp
  simp only [find?_map_update]
  cases w.resps.find? (fun e => e.1 == rid) <;> simp

theorem lookupResp_finishWithError (rid : RId) (err : QStr) (w : World) :
    lookupResp rid (finishWithError rid err w)
      = (lookupResp rid w).map (fun q => { q with errorString := err, finished := true }) := by
  unfold finishWithError
  cases hr : lookupResp rid w with
  | none => simp [hr]
  | some r =>
    simp only [hr]
    have h2 := lookupResp_updateResp_self rid
      (fun q => { q with errorString := err, finished := true }) w
    rw [hr] at h2
    simpa [lookupResp] using h2

theorem lookupResp_finishWithImage (rid : RId) (img : QImageM) (w : World) :
    lookupResp rid (finishWithImage rid img w)
      = (lookupResp rid w).map (fun q => { q with image := img, finished := true }) := by
  unfold finishWithImage
  cases hr : lookupResp rid w with
  | none => simp [hr]
  | some r =>
    simp only [hr]
    have h2 := lookupResp_updateResp_self rid
      (fun q => { q with image := img, finished := true }) w
    rw [hr] at h2
    simpa [lookupResp, cacheImageW] using h2

theorem finishWithImage_callbacks (rid : RId) (img : QImageM) (w : World) :
    (finishWithImage rid img w).callbacks = w.callbacks := by
  unfold finishWithImage
  cases lookupResp rid w <;> simp [updateResp, cacheImageW]

theorem finishWithError_callbacks (rid : RId) (err : QStr) (w : World) :
    (finishWithError rid err w).callbacks = w.callbacks := by
  unfold finishWithError
  cases lookupResp rid w <;> simp [updateResp]

theorem loadFromPath_callbacks (env : Env) (rid : RId) (path : QStr) (w : World) :
    (loadFromPath env rid path w).callbacks = w.callbacks := by
  unfold loadFromPath
  cases lookupResp rid w with
  | none => rfl
  | some r =>
    cases env.readNatural path <;>
      simp [finishWithError_callbacks, finishWithImage_callbacks]

theorem loadFromBase64_callbacks (env : Env) (rid : RId) (b64 : QStr) (w : World) :
    (loadFromBase64 env rid b64 w).callbacks = w.callbacks := by
  unfold loadFromBase64
  cases env.decodePlaceholder b64 <;>
    simp [finishWithError_callbacks, finishWithImage_callbacks]

theorem handle_callbacks (env : Env) (rid : RId) (path : QStr) (ip : Bool) (pb : QStr)
    (uo : Bool) (w : World) :
    (handleThumbnailReady env rid path ip pb uo w).callbacks = w.callbacks := by
  unfold handleThumbnailReady
  cases lookupResp rid w with
  | none => rfl
  | some r =>
    by_cases hf : r.finished = true
    · simp [hf]
    · by_cases h1 : (ip && !pb.isEmpty) = true
      · simp [hf, h1, loadFromBase64_callbacks]
      · by_cases h2 : (!path.isEmpty) = true
        · simp [hf, h1, h2, loadFromPath_callbacks]
        · simp [hf, h1, h2, finishWithError_callbacks]

theorem finishWithImage_pending_none (hq : QStr) (rid : RId) (img : QImageM) (w : World)
    (hn : lookupPending hq w.pending = none) :
    lookupPending hq (finishWithImage rid img w).pending = none := by
  unfold finishWithImage
  cases hr : lookupResp rid w with
  | none => exact hn
  | some r =>
    simp only [updateResp, cacheImageW]
    exact lookupPending_removePendingL_none hq r.fileHash rid w.pending hn

theorem finishWithError_pending_none (hq : QStr) (rid : RId) (err : QStr) (w : World)
    (hn : lookupPending hq w.pending = none) :
    lookupPending hq (finishWithError rid err w).pending = none := by
  unfold finishWithError
  cases hr : lookupResp rid w with
  | none => exact hn
  | some r =>
    simp only [updateResp]
    exact lookupPending_removePendingL_none hq r.fileHash rid w.pending hn

theorem loadFromPath_pending_none (hq : QStr) (env : Env) (rid : RId) (path : QStr) (w : World)
    (hn : lookupPending hq w.pending = none) :
    lookupPending hq (loadFromPath env rid path w).pending = none := by
  unfold loadFromPath
  cases lookupResp rid w with
  | none => exact hn
  | some r =>
    cases env.readNatural path with
    | none => exact finishWithError_pending_none hq rid _ w hn
    | some nat => exact finishWithImage_pending_none hq rid _ w hn

theorem loadFromBase64_pending_none (hq : QStr) (env : Env) (rid : RId) (b64 : QStr) (w : World)
    (hn : lookupPending hq w.pending = none) :
    lookupPending hq (loadFromBase64 env rid b64 w).pending = none := by
  unfold loadFromBase64
  cases env.decodePlaceholder b64 with
  | none => exact finishWithError_pending_none hq rid _ w hn
  | some img => exact finishWithImage_pending_none hq rid _ w hn

theorem handle_pending_none (hq : QStr) (env : Env) (rid : RId) (path : QStr) (ip : Bool)
    (pb : QStr) (uo : Bool) (w : World)
    (hn : lookupPending hq w.pending = none) :
    lookupPending hq (handleThumbnailReady env rid path ip pb uo w).pending = none := by
  unfold handleThumbnailReady
  cases lookupResp rid w with
  | none => exact hn
  | some r =>
    by_cases hf : r.finished = true
    · simp only [hf]
      simpa using hn
    · by_cases h1 : (ip && !pb.isEmpty) = true
      · simp only [hf, h1]
        simpa using loadFromBase64_pending_none hq env rid pb w hn
      · by_cases h2 : (!path.isEmpty) = true
        · simp only [hf, h1, h2]
          simpa using loadFromPath_pending_none hq env rid path w hn
        · simp only [hf, h1, h2]
          simpa using finishWithError_pending_none hq rid _ w hn

/-- The fan-out loop appends exactly one callback record per drained waiter. -/
theorem notify_fold_callbacks (env : Env) (path : QStr) (ip : Bool) (pb : QStr) (uo : Bool)
    (rids : List RId) (w : World) :
    (rids.foldl (fun acc rid =>
        handleThumbnailReady env rid path ip pb uo
          { acc with callbacks := acc.callbacks ++ [(rid, path, ip, pb, uo)] }) w).callbacks
      = w.callbacks ++ rids.map (fun rid => (rid, path, ip, pb, uo)) := by
  induction rids generalizing w with
  | nil => simp
  | cons a t ih =>
    rw [List.foldl_cons, ih, handle_callbacks]
    simp

/-- The fan-out loop never re-creates a registry entry. -/
theorem notify_fold_pending_none (hq : QStr) (env : Env) (path : QStr) (ip : Bool) (pb : QStr)
    (uo : Bool) (rids : List RId) (w : World)
    (hn : lookupPending hq w.pending = none) :
    lookupPending hq ((rids.foldl (fun acc rid =>
        handleThumbnailReady env rid path ip pb uo
          { acc with callbacks := acc.callbacks ++ [(rid, path, ip, pb, uo)] }) w)).pending
      = none := by
  induction rids generalizing w with
  | nil => exact hn
  | cons a t ih =>
    rw [List.foldl_cons]
    apply ih
    apply handle_pending_none
    simpa using hn

/-! ## Claim theorems -/

/-- C3: the image cache's default capacity is 200 entries; the cache never
    holds more entries than its configured capacity under any sequence of
    cache operations; and after inserting capacity+1 distinct keys into an
    initially empty cache it holds exactly capacity entries and the first
    inserted (least-recently-used) key is absent. -/
theorem c3_cache_bound_lru (cap : Nat) (k0 : QStr) (rest : List QStr) (f : QStr → QImageM)
    (hnd : (k0 :: rest).Nodup) (hlen : rest.length = cap) :
    DEFAULT_CACHE_SIZE = 200 ∧
    initialWorld.cache = emptyCache 200 ∧
    (∀ (ops : List CacheOp) (c : CacheState), c.entries.length ≤ c.maxCost →
      (runCacheOps ops c).entries.length ≤ (runCacheOps ops c).maxCost) ∧
    ((k0 :: rest).foldl (fun acc k => insertC k (f k) acc) (emptyCache cap)).entries.length = cap ∧
    lookupC k0 ((k0 :: rest).foldl (fun acc k => insertC k (f k) acc) (emptyCache cap)) = none := by
  have hfold := foldl_insertC (k0 :: rest) f (emptyCache cap) hnd
    (by intro k hk e he; simp [emptyCache] at he) (by simp [emptyCache])
  have hentries :
      ((k0 :: rest).foldl (fun acc k => insertC k (f k) acc) (emptyCache cap)).entries
        = (rest.reverse.map (fun k => (k, f k)) ++ [(k0, f k0)]).take cap := by
    rw [hfold.1]
    simp [emptyCache, List.reverse_cons]
  have hrevlen : (rest.reverse.map (fun k => (k, f k))).length = cap := by
    simp [hlen]
  have htake : (rest.reverse.map (fun k => (k, f k)) ++ [(k0, f k0)]).take cap
      = rest.reverse.map (fun k => (k, f k)) := by
    rw [show cap = (rest.reverse.map (fun k => (k, f k))).length from hrevlen.symm]
    exact List.take_left _ _
  refine ⟨rfl, rfl, ?_, ?_, ?_⟩
  · intro ops c hc
    exact runCacheOps_bound ops c hc
  · rw [hentries, htake, hrevlen]
  · rw [lookupC, hentries, htake]
    have hk0 : k0 ∉ rest := (List.nodup_cons.mp hnd).1
    rw [List.find?_eq_none.mpr ?_]
    · rfl
    · intro e he hbe
      rcases List.mem_map.mp (by simpa using he) with ⟨k, hk, hke⟩
      have : e.1 = k0 := beq_iff_eq.mp hbe
      apply hk0
      rw [← this, ← hke]
      simpa using hk

/-- Witness for C3 at capacity 2 with keys [1], [2], [3]. -/
theorem c3_cache_bound_lru_witness :
    (([ [1], [2], [3] ] : List QStr).Nodup ∧ ([ ([2] : QStr), [3] ].length = 2)) ∧
    (([ [1], [2], [3] ] : List QStr).foldl
        (fun acc k => insertC k nullQImage acc) (emptyCache 2)).entries.length = 2 ∧
    lookupC [1] (([ [1], [2], [3] ] : List QStr).foldl
        (fun acc k => insertC k nullQImage acc) (emptyCache 2)) = none := by
  refine ⟨⟨by decide, by decide⟩, ?_⟩
  have h := c3_cache_bound_lru 2 [1] [ [2], [3] ] (fun _ => nullQImage) (by decide) (by decide)
  exact ⟨h.2.2.2.1, h.2.2.2.2⟩

/-- C9: when a key misses, getCachedImage returns a default-constructed null
    image and leaves the whole provider state unchanged; getCachedImage never
    changes the key/value contents of the cache; and, as long as no null
    image was ever inserted, hasCachedImage is false exactly on the keys for
    which getCachedImage returns the null image. -/
theorem c9_cache_miss_interface (k : QStr) (w : World)
    (hnn : ∀ e ∈ w.cache.entries, e.2 ≠ nullQImage) :
    (hasCachedImageW k w = false → getCachedImageW k w = (nullQImage, w)) ∧
    (∀ kq, lookupC kq (getCachedImageW k w).2.cache = lookupC kq w.cache) ∧
    (hasCachedImageW k w = false ↔ (getCachedImageW k w).1 = nullQImage) := by
  have hmiss_imp : hasCachedImageW k w = false → getCachedImageW k w = (nullQImage, w) := by
    intro hmiss
    have hfn : w.cache.entries.find? (fun e => e.1 == k) = none := by
      simp only [hasCachedImageW, containsC, lookupC] at hmiss
      cases hf : w.cache.entries.find? (fun e => e.1 == k) with
      | none => rfl
      | some e => rw [hf] at hmiss; simp at hmiss
    simp [getCachedImageW, objectC, hfn]
  refine ⟨hmiss_imp, ?_, ?_, ?_⟩
  · intro kq
    simp [getCachedImageW, lookupC_objectC]
  · intro hmiss
    rw [hmiss_imp hmiss]
  · intro hnull
    by_contra hcon
    have htrue : hasCachedImageW k w = true := by
      cases hb : hasCachedImageW k w
      · exact absurd hb hcon
      · rfl
    obtain ⟨img, himg⟩ : ∃ img, lookupC k w.cache = some img := by
      simp only [hasCachedImageW, containsC] at htrue
      exact Option.isSome_iff_exists.mp htrue
    obtain ⟨e, he⟩ : ∃ e, w.cache.entries.find? (fun q => q.1 == k) = some e := by
      simp only [lookupC] at himg
      cases hf : w.cache.entries.find? (fun q => q.1 == k) with
      | none => rw [hf] at himg; simp at himg
      | some e2 => exact ⟨e2, rfl⟩
    have hmem := List.mem_of_find?_eq_some he
    have himg2 : e.2 = img := by
      simp only [lookupC, he, Option.map_some] at himg
      exact Option.some.inj himg
    have hfst : (getCachedImageW k w).1 = img := by
      simp only [getCachedImageW]
      rw [objectC_fst, himg]
      rfl
    exact hnn e hmem (by rw [himg2, ← hfst]; exact hnull)

/-- A completion for an identity with no registry entry changes nothing. -/
theorem notify_of_none (env : Env) (fh size path : QStr) (ip : Bool) (pb : QStr) (uo : Bool)
    (w : World) (hn : lookupPending fh w.pending = none) :
    notifyThumbnailReady env fh size path ip pb uo w = w := by
  unfold notifyThumbnailReady
  rw [hn]

theorem lookupPending_removePendingL_self (h : QStr) (r : RId) (p : Pending)
    (hnd : (p.map Prod.fst).Nodup) :
    lookupPending h (removePendingL h r p)
      = (match lookupPending h p with
         | none => none
         | some s => if (s.erase r).isEmpty then none else some (s.erase r)) := by
  unfold removePendingL
  cases hl : lookupPending h p with
  | none => simp [hl]
  | some s =>
    by_cases he : (s.erase r).isEmpty = true
    · simp [he, lookupPending_erasePending_self h p hnd]
    · simp [he, lookupPending_setPending_self h _ p (by simp [hl])]

/-- C2: notifyThumbnailReady drains the waiter set of the identity and hands
    every drained waiter — whatever size class it was registered under — the
    same completion payload; the registry entry is removed in the same step,
    and a second identical notification changes nothing (it delivers to no
    waiter drained by the first). -/
theorem c2_completion_fanout (env : Env) (fh size path : QStr) (ip : Bool) (pb : QStr)
    (uo : Bool) (w : World) (rids : List RId)
    (hw : lookupPending fh w.pending = some rids)
    (hnd : (w.pending.map Prod.fst).Nodup) :
    (notifyThumbnailReady env fh size path ip pb uo w).callbacks
      = w.callbacks ++ rids.map (fun rid => (rid, path, ip, pb, uo)) ∧
    lookupPending fh (notifyThumbnailReady env fh size path ip pb uo w).pending = none ∧
    notifyThumbnailReady env fh size path ip pb uo
        (notifyThumbnailReady env fh size path ip pb uo w)
      = notifyThumbnailReady env fh size path ip pb uo w := by
  have hstep :
      notifyThumbnailReady env fh size path ip pb uo w
        = rids.foldl (fun acc rid =>
            handleThumbnailReady env rid path ip pb uo
              { acc with callbacks := acc.callbacks ++ [(rid, path, ip, pb, uo)] })
            { w with pending := erasePending fh w.pending } := by
    unfold notifyThumbnailReady
    rw [hw]
  have hpnone :
      lookupPending fh ({ w with pending := erasePending fh w.pending } : World).pending
        = none := by
    simpa using lookupPending_erasePending_self fh w.pending hnd
  have hc2 : lookupPending fh (notifyThumbnailReady env fh size path ip pb uo w).pending
      = none := by
    rw [hstep]
    exact notify_fold_pending_none fh env path ip pb uo rids _ hpnone
  refine ⟨?_, hc2, notify_of_none env fh size path ip pb uo _ hc2⟩
  rw [hstep, notify_fold_callbacks]

/-- A world used to witness C2: two pending waiters under hash [3], one
    registered for a small, one for a large size class. -/
def w2c : World :=
  { cache := emptyCache 200, pending := [([3], [1, 2])]
    resps := [(1, initResp [3] [8] (qstr "small") invalidQSize),
              (2, initResp [3] [8] (qstr "large") invalidQSize)]
    enqueued := [], cacheWrites := [], finishedEvents := [], callbacks := [] }

/-- An environment with no disk artifacts and no decodable images. -/
def env0 : Env :=
  { thumbPath := fun _ _ => [], fileExists := fun _ => false
    readNatural := fun _ => none, readerError := fun _ => [17]
    decodePlaceholder := fun _ => none }

/-- Witness for C2: both waiters (different size classes) receive the same
    payload, and the entry is gone afterwards. -/
theorem c2_completion_fanout_witness :
    (lookupPending [3] w2c.pending = some [1, 2]
      ∧ (w2c.pending.map Prod.fst).Nodup) ∧
    (notifyThumbnailReady env0 [3] (qstr "small") [4] false [] false w2c).callbacks
      = w2c.callbacks ++ [1, 2].map (fun rid => (rid, ([4] : QStr), false, ([] : QStr), false)) ∧
    lookupPending [3] (notifyThumbnailReady env0 [3] (qstr "small") [4] false [] false w2c).pending
      = none := by
  refine ⟨⟨by decide, by decide⟩, ?_⟩
  have h := c2_completion_fanout env0 [3] (qstr "small") [4] false [] false w2c [1, 2]
    (by decide) (by decide)
  exact ⟨h.1, h.2.1⟩

/-- C8: destroying an undelivered response removes it from its identity's
    waiter set, and a removal that empties the set drops the registry entry
    entirely; once an identity has no registry entry, a completion event for
    it is a no-op that invokes no callback. -/
theorem c8_no_leak_on_cancel (rid : RId) (w : World) (r : RespState)
    (hr : lookupResp rid w = some r) (hf : r.finished = false)
    (hnd : (w.pending.map Prod.fst).Nodup) :
    (lookupPending r.fileHash (destroyResponse rid w).pending
      = (match lookupPending r.fileHash w.pending with
         | none => none
         | some s => if (s.erase rid).isEmpty then none else some (s.erase rid))) ∧
    (∀ (env : Env) (fh size path : QStr) (ip : Bool) (pb : QStr) (uo : Bool) (w2 : World),
      lookupPending fh w2.pending = none →
        notifyThumbnailReady env fh size path ip pb uo w2 = w2) := by
  constructor
  · have hpend : (destroyResponse rid w).pending
        = removePendingL r.fileHash rid w.pending := by
      unfold destroyResponse
      rw [hr]
      simp [hf]
    rw [hpend]
    exact lookupPending_removePendingL_self r.fileHash rid w.pending hnd
  · intro env fh size path ip pb uo w2 hn
    exact notify_of_none env fh size path ip pb uo w2 hn

/-- A world used to witness C8: one unfinished waiter under hash [3]. -/
def w8c : World :=
  { cache := emptyCache 200, pending := [([3], [1])]
    resps := [(1, initResp [3] [8] (qstr "medium") invalidQSize)]
    enqueued := [], cacheWrites := [], finishedEvents := [], callbacks := [] }

/-- Witness for C8: cancelling the only waiter drops the entry. -/
theorem c8_no_leak_on_cancel_witness :
    (lookupResp 1 w8c = some (initResp [3] [8] (qstr "medium") invalidQSize)
      ∧ (initResp [3] [8] (qstr "medium") invalidQSize).finished = false
      ∧ (w8c.pending.map Prod.fst).Nodup) ∧
    lookupPending (initResp [3] [8] (qstr "medium") invalidQSize).fileHash
        (destroyResponse 1 w8c).pending = none := by
  refine ⟨⟨by decide, by decide, by decide⟩, ?_⟩
  have h := c8_no_leak_on_cancel 1 w8c (initResp [3] [8] (qstr "medium") invalidQSize)
    (by decide) (by decide) (by decide)
  rw [h.1]
  decide

theorem lookupResp_append_fresh (rid : RId) (r0 : RespState) (w : World)
    (hn : lookupResp rid w = none) :
    lookupResp rid ({ w with resps := w.resps ++ [(rid, r0)] } : World) = some r0 := by
  have hfn : w.resps.find? (fun e => e.1 == rid) = none := by
    simp only [lookupResp] at hn
    exact Option.map_eq_none.mp hn
  simp [lookupResp, List.find?_append, hfn]

theorem finishWithError_pending (rid : RId) (err : QStr) (w : World) (r : RespState)
    (hr : lookupResp rid w = some r) :
    (finishWithError rid err w).pending = removePendingL r.fileHash rid w.pending := by
  unfold finishWithError
  rw [hr]
  rfl

theorem finishWithError_enqueued (rid : RId) (err : QStr) (w : World) :
    (finishWithError rid err w).enqueued = w.enqueued := by
  unfold finishWithError
  cases lookupResp rid w <;> simp [updateResp]

/-- C1 counterexample, first request: identity [104], source path [112],
    size [115], empty initial state, no cache or disk artifact. -/
def w1c : World := mkResponse env0 1 [104] [112] [115] invalidQSize initialWorld

/-- C1 counterexample, second identical request issued before any
    completion. -/
def w1c2 : World := mkResponse env0 2 [104] [112] [115] invalidQSize w1c

/-- C1 is false on the code: the second request finds the waiter set for the
    identity already open (it holds waiter 1), yet enqueueThumbnailsBatch is
    invoked a second time for the same (identity, size) pair — the enqueue
    happens once per caller, not at most once per distinct pair. -/
theorem c1_counterexample :
    lookupPending [104] w1c.pending = some [1] ∧
    w1c.enqueued = [([112], [104], [115])] ∧
    w1c2.enqueued = [([112], [104], [115]), ([112], [104], [115])] :=
  ⟨by decide, by decide, by decide⟩

/-- C1 amended: every request that reaches the generation branch (cache miss,
    no disk artifact, nonempty source path) issues exactly one
    enqueueThumbnailsBatch call carrying exactly its own (path, identity,
    size) entry — whether or not a waiter set for its identity is already
    open — and registers as an additional waiter for the identity; the
    coalescing the spec describes happens only at completion fan-out, never
    at enqueue time. -/
theorem c1_enqueue_per_caller (env : Env) (rid : RId) (h fp s : QStr) (rs : QSizeM) (w : World)
    (hcache : containsC (cacheKeyOf h s) w.cache = false)
    (hdisk : (!(env.thumbPath h s).isEmpty && env.fileExists (env.thumbPath h s)) = false)
    (hfp : fp.isEmpty = false)
    (hmem : ∀ t, lookupPending h w.pending = some t → rid ∉ t) :
    (mkResponse env rid h fp s rs w).enqueued = w.enqueued ++ [(fp, h, s)] ∧
    lookupPending h (mkResponse env rid h fp s rs w).pending
      = some ((lookupPending h w.pending).getD [] ++ [rid]) := by
  have hbranch : mkResponse env rid h fp s rs w
      = { ({ w with resps := w.resps ++ [(rid, initResp h fp s rs)] } : World) with
          pending := addPendingL h rid w.pending
          enqueued := w.enqueued ++ [(fp, h, s)] } := by
    unfold mkResponse
    simp [hasCachedImageW, hcache, hdisk, hfp]
  rw [hbranch]
  refine ⟨rfl, ?_⟩
  rw [lookupPending_addPendingL_self]
  cases hl : lookupPending h w.pending with
  | none => simp
  | some t =>
    have hni : rid ∉ t := hmem t hl
    simp [hni]

/-- Witness for the amended C1 on an empty initial state. -/
theorem c1_enqueue_per_caller_witness :
    (containsC (cacheKeyOf [104] [115]) initialWorld.cache = false
      ∧ (!(env0.thumbPath [104] [115]).isEmpty
          && env0.fileExists (env0.thumbPath [104] [115])) = false
      ∧ ([112] : QStr).isEmpty = false) ∧
    (mkResponse env0 1 [104] [112] [115] invalidQSize initialWorld).enqueued
      = initialWorld.enqueued ++ [([112], [104], [115])] ∧
    lookupPending [104] (mkResponse env0 1 [104] [112] [115] invalidQSize initialWorld).pending
      = some ((lookupPending [104] initialWorld.pending).getD [] ++ [1]) := by
  refine ⟨⟨by decide, by decide, by decide⟩, ?_⟩
  exact c1_enqueue_per_caller env0 1 [104] [112] [115] invalidQSize initialWorld
    (by decide) (by decide) (by decide)
    (by intro t ht; simp [initialWorld, lookupPending] at ht)

/-- C4: a request whose key misses the cache, for which no disk artifact
    exists and whose source path is empty finishes in the Failed state with
    the missing-source error string, and neither the pending registry nor
    the enqueue log changes. -/
theorem c4_missing_source (env : Env) (rid : RId) (h s : QStr) (rs : QSizeM) (w : World)
    (hcache : containsC (cacheKeyOf h s) w.cache = false)
    (hdisk : (!(env.thumbPath h s).isEmpty && env.fileExists (env.thumbPath h s)) = false)
    (hfresh : lookupResp rid w = none)
    (hmem : ∀ t, lookupPending h w.pending = some t → (rid ∉ t ∧ t ≠ [])) :
    lookupResp rid (mkResponse env rid h [] s rs w)
      = some { initResp h [] s rs with
               errorString := qstr "Missing file path for thumbnail request"
               finished := true } ∧
    (mkResponse env rid h [] s rs w).pending = w.pending ∧
    (mkResponse env rid h [] s rs w).enqueued = w.enqueued := by
  have hbranch : mkResponse env rid h [] s rs w
      = finishWithError rid (qstr "Missing file path for thumbnail request")
          ({ w with resps := w.resps ++ [(rid, initResp h [] s rs)] } : World) := by
    unfold mkResponse
    simp [hasCachedImageW, hcache, hdisk]
  have hr0 : lookupResp rid ({ w with resps := w.resps ++ [(rid, initResp h [] s rs)] } : World)
      = some (initResp h [] s rs) := lookupResp_append_fresh rid _ w hfresh
  rw [hbranch]
  refine ⟨?_, ?_, ?_⟩
  · rw [lookupResp_finishWithError, hr0]
    rfl
  · rw [finishWithError_pending rid _ _ (initResp h [] s rs) hr0]
    exact removePendingL_of_absent h rid w.pending hmem
  · rw [finishWithError_enqueued]

/-- Witness for C4 on an empty initial state. -/
theorem c4_missing_source_witness :
    (containsC (cacheKeyOf [104] [115]) initialWorld.cache = false
      ∧ (!(env0.thumbPath [104] [115]).isEmpty
          && env0.fileExists (env0.thumbPath [104] [115])) = false
      ∧ lookupResp 1 initialWorld = none) ∧
    lookupResp 1 (mkResponse env0 1 [104] [] [115] invalidQSize initialWorld)
      = some { initResp [104] [] [115] invalidQSize with
               errorString := qstr "Missing file path for thumbnail request"
               finished := true } ∧
    (mkResponse env0 1 [104] [] [115] invalidQSize initialWorld).pending
      = initialWorld.pending ∧
    (mkResponse env0 1 [104] [] [115] invalidQSize initialWorld).enqueued
      = initialWorld.enqueued := by
  refine ⟨⟨by decide, by decide, by decide⟩, ?_⟩
  exact c4_missing_source env0 1 [104] [115] invalidQSize initialWorld
    (by decide) (by decide) (by decide)
    (by intro t ht; simp [initialWorld, lookupPending] at ht)

/-- C5: in handleThumbnailReady the placeholder branch takes precedence: with
    isPlaceholder set and nonempty placeholder bytes the placeholder is
    decoded (whatever the path says); the path is decoded only when the
    placeholder branch does not apply; and with neither available the request
    fails with the no-thumbnail error. -/
theorem c5_placeholder_precedence (env : Env) (rid : RId) (path pb : QStr) (uo : Bool)
    (w : World) (r : RespState)
    (hr : lookupResp rid w = some r) (hf : r.finished = false) :
    (pb.isEmpty = false →
      handleThumbnailReady env rid path true pb uo w = loadFromBase64 env rid pb w) ∧
    (∀ ip : Bool, (ip && !pb.isEmpty) = false → path.isEmpty = false →
      handleThumbnailReady env rid path ip pb uo w = loadFromPath env rid path w) ∧
    (∀ ip : Bool, (ip && !pb.isEmpty) = false → path.isEmpty = true →
      handleThumbnailReady env rid path ip pb uo w
        = finishWithError rid (qstr "No thumbnail available") w) := by
  refine ⟨?_, ?_, ?_⟩
  · intro hpb
    unfold handleThumbnailReady
    rw [hr]
    simp [hf, hpb]
  · intro ip hcond hpath
    unfold handleThumbnailReady
    rw [hr]
    simp [hf, hcond, hpath]
  · intro ip hcond hpath
    unfold handleThumbnailReady
    rw [hr]
    simp [hf, hcond, hpath]

/-- A world used to witness C5: one unfinished response. -/
def w5c : World :=
  { cache := emptyCache 200, pending := []
    resps := [(1, initResp [3] [8] (qstr "medium") invalidQSize)]
    enqueued := [], cacheWrites := [], finishedEvents := [], callbacks := [] }

/-- Witness for C5: payload carrying both a placeholder and a path decodes
    the placeholder. -/
theorem c5_placeholder_precedence_witness :
    (lookupResp 1 w5c = some (initResp [3] [8] (qstr "medium") invalidQSize)
      ∧ (initResp [3] [8] (qstr "medium") invalidQSize).finished = false
      ∧ ([9] : QStr).isEmpty = false) ∧
    handleThumbnailReady env0 1 [4] true [9] false w5c = loadFromBase64 env0 1 [9] w5c := by
  refine ⟨⟨by decide, by decide, by decide⟩, ?_⟩
  exact (c5_placeholder_precedence env0 1 [4] [9] false w5c
    (initResp [3] [8] (qstr "medium") invalidQSize) (by decide) (by decide)).1 (by decide)

/-- An environment for C6: paths decode to a 10 by 10 natural image,
    placeholder payloads decode to a 100 by 100 natural image. -/
def env6 : Env :=
  { thumbPath := fun _ _ => [], fileExists := fun _ => false
    readNatural := fun _ => some ⟨10, 10, [3]⟩, readerError := fun _ => []
    decodePlaceholder := fun _ => some ⟨100, 100, [7]⟩ }

/-- A world for C6: response 1 requests a valid 10 by 10 target dimension,
    response 2 requests 100 by 100. -/
def w6c : World :=
  { cache := emptyCache 200, pending := []
    resps := [(1, initResp [3] [8] (qstr "medium") ⟨10, 10⟩),
              (2, initResp [3] [8] (qstr "medium") ⟨100, 100⟩)]
    enqueued := [], cacheWrites := [], finishedEvents := [], callbacks := [] }

/-- C6 is false on the code: decoding a placeholder payload ignores the valid
    requested target dimension (a 10 by 10 request yields the 100 by 100
    natural placeholder), and the path decode scales to exactly the requested
    dimension even beyond the natural size (a 100 by 100 request on a
    10 by 10 source yields 100 by 100 — an upscale). -/
theorem c6_counterexample :
    QSizeM.isValid ⟨10, 10⟩ = true ∧
    (lookupResp 1 (loadFromBase64 env6 1 [9] w6c)).map (fun q => q.image)
      = some ⟨100, 100, [7]⟩ ∧
    (lookupResp 2 (loadFromPath env6 2 [4] w6c)).map (fun q => q.image)
      = some ⟨100, 100, [3]⟩ :=
  ⟨by decide, by decide, by decide⟩

/-- C6 amended: only the path decode honors the requested target dimension —
    loadFromPath scales the decoded image to exactly that dimension whenever
    it is valid, even above the natural size, while loadFromBase64 decodes
    the placeholder at its natural size, ignoring the requested dimension. -/
theorem c6_decode_policy (env : Env) (rid : RId) (path b64 : QStr) (w : World) (r : RespState)
    (hr : lookupResp rid w = some r) :
    (∀ nat, env.readNatural path = some nat → r.requestedSize.isValid = true →
      (lookupResp rid (loadFromPath env rid path w)).map (fun q => q.image)
        = some (scaleTo r.requestedSize nat)) ∧
    (∀ img, env.decodePlaceholder b64 = some img →
      (lookupResp rid (loadFromBase64 env rid b64 w)).map (fun q => q.image)
        = some img) := by
  constructor
  · intro nat hnat hvalid
    unfold loadFromPath
    rw [hr, hnat]
    simp only [hvalid, if_true]
    rw [lookupResp_finishWithImage, hr]
    rfl
  · intro img himg
    unfold loadFromBase64
    rw [himg]
    rw [lookupResp_finishWithImage, hr]
    rfl

/-- Witness for the amended C6 in the environment of the counterexample. -/
theorem c6_decode_policy_witness :
    (lookupResp 1 w6c = some (initResp [3] [8] (qstr "medium") ⟨10, 10⟩)
      ∧ env6.readNatural [4] = some ⟨10, 10, [3]⟩
      ∧ (initResp [3] [8] (qstr "medium") ⟨10, 10⟩).requestedSize.isValid = true) ∧
    (lookupResp 1 (loadFromPath env6 1 [4] w6c)).map (fun q => q.image)
      = some (scaleTo (initResp [3] [8] (qstr "medium") ⟨10, 10⟩).requestedSize
          ⟨10, 10, [3]⟩) := by
  refine ⟨⟨by decide, by decide, by decide⟩, ?_⟩
  exact (c6_decode_policy env6 1 [4] [9] w6c (initResp [3] [8] (qstr "medium") ⟨10, 10⟩)
    (by decide)).1 ⟨10, 10, [3]⟩ (by decide) (by decide)

/-- A world for the C7 counterexample: the cache already holds an image under
    the key of identity [5] at size [115]. -/
def w7c : World :=
  { cache := { entries := [(cacheKeyOf [5] [115], ⟨2, 2, [6]⟩)], maxCost := 200 }
    pending := [], resps := [], enqueued := [], cacheWrites := []
    finishedEvents := [], callbacks := [] }

/-- The cache-hit request on that world. -/
def w7r : World := mkResponse env0 1 [5] [] [115] invalidQSize w7c

/-- C7 is false on the code as stated: the cache-hit path delivers the request
    (finished, no error, image set) without performing any cache write. -/
theorem c7_counterexample :
    (lookupResp 1 w7r).map (fun r => (r.finished, r.errorString, r.image))
      = some (true, [], ⟨2, 2, [6]⟩) ∧
    w7r.cacheWrites = [] :=
  ⟨by decide, by decide⟩

/-- C7 amended: every Delivered transition through finishWithImage (disk hit
    or generation completion) writes the decoded image into the cache under
    the (identity, size) key; the constructor's cache-hit delivery performs
    no write and leaves the cache contents unchanged, delivering exactly the
    image already stored under that key. -/
theorem c7_delivered_cache (rid : RId) (img : QImageM) (w : World) (r : RespState)
    (hr : lookupResp rid w = some r) :
    ((finishWithImage rid img w).cache = insertC (cacheKeyOf r.fileHash r.size) img w.cache ∧
     (finishWithImage rid img w).cacheWrites
        = w.cacheWrites ++ [(cacheKeyOf r.fileHash r.size, img)]) ∧
    (∀ (env : Env) (rid2 : RId) (h fp s : QStr) (rs : QSizeM) (w2 : World) (img2 : QImageM),
      lookupResp rid2 w2 = none →
      lookupC (cacheKeyOf h s) w2.cache = some img2 →
        (lookupResp rid2 (mkResponse env rid2 h fp s rs w2)).map
            (fun q => (q.finished, q.image)) = some (true, img2) ∧
        (mkResponse env rid2 h fp s rs w2).cacheWrites = w2.cacheWrites ∧
        (∀ kq, lookupC kq (mkResponse env rid2 h fp s rs w2).cache = lookupC kq w2.cache)) := by
  constructor
  · constructor
    · unfold finishWithImage
      rw [hr]
      rfl
    · unfold finishWithImage
      rw [hr]
      rfl
  · intro env rid2 h fp s rs w2 img2 hfresh hlook
    have hw0 : lookupResp rid2
        ({ w2 with resps := w2.resps ++ [(rid2, initResp h fp s rs)] } : World)
        = some (initResp h fp s rs) := lookupResp_append_fresh rid2 _ w2 hfresh
    have hcond : hasCachedImageW (cacheKeyOf h s)
        ({ w2 with resps := w2.resps ++ [(rid2, initResp h fp s rs)] } : World) = true := by
      simp [hasCachedImageW, containsC, hlook]
    have hfst : (getCachedImageW (cacheKeyOf h s)
        ({ w2 with resps := w2.resps ++ [(rid2, initResp h fp s rs)] } : World)).1 = img2 := by
      simp only [getCachedImageW]
      rw [objectC_fst]
      simp [hlook]
    have hbranch : mkResponse env rid2 h fp s rs w2
        = (fun w0 =>
            (fun gr =>
              (fun w1 => { w1 with finishedEvents := w1.finishedEvents ++ [rid2] })
                (updateResp rid2 (fun q => { q with image := gr.1, finished := true }) gr.2))
              (getCachedImageW (cacheKeyOf h s) w0))
            ({ w2 with resps := w2.resps ++ [(rid2, initResp h fp s rs)] } : World) := by
      unfold mkResponse
      rw [if_pos hcond]
    refine ⟨?_, ?_, ?_⟩
    · rw [hbranch]
      simp only []
      rw [show ∀ wa : World, lookupResp rid2
            ({ wa with finishedEvents := wa.finishedEvents ++ [rid2] } : World)
            = lookupResp rid2 wa from fun wa => rfl]
      rw [lookupResp_updateResp_self]
      have hlr : lookupResp rid2
          (getCachedImageW (cacheKeyOf h s)
            ({ w2 with resps := w2.resps ++ [(rid2, initResp h fp s rs)] } : World)).2
          = some (initResp h fp s rs) := hw0
      rw [hlr, hfst]
      rfl
    · rw [hbranch]
      rfl
    · intro kq
      rw [hbranch]
      simp only [updateResp, getCachedImageW]
      exact lookupC_objectC kq (cacheKeyOf h s) w2.cache

/-- A world for the witness of the amended C7. -/
def w7w : World :=
  { cache := { entries := [(cacheKeyOf [5] [115], ⟨2, 2, [6]⟩)], maxCost := 200 }
    pending := [], resps := [(1, initResp [5] [8] [115] invalidQSize)]
    enqueued := [], cacheWrites := [], finishedEvents := [], callbacks := [] }

/-- Witness for the amended C7: a finishWithImage delivery writes the image
    under the (identity, size) key. -/
theorem c7_delivered_cache_witness :
    (lookupResp 1 w7w = some (initResp [5] [8] [115] invalidQSize)) ∧
    (finishWithImage 1 ⟨4, 4, [2]⟩ w7w).cache
      = insertC (cacheKeyOf (initResp [5] [8] [115] invalidQSize).fileHash
          (initResp [5] [8] [115] invalidQSize).size) ⟨4, 4, [2]⟩ w7w.cache ∧
    (finishWithImage 1 ⟨4, 4, [2]⟩ w7w).cacheWrites
      = w7w.cacheWrites ++ [(cacheKeyOf (initResp [5] [8] [115] invalidQSize).fileHash
          (initResp [5] [8] [115] invalidQSize).size, ⟨4, 4, [2]⟩)] := by
  refine ⟨by decide, ?_⟩
  exact (c7_delivered_cache 1 ⟨4, 4, [2]⟩ w7w (initResp [5] [8] [115] invalidQSize)
    (by decide)).1

/-- A world whose cache holds one non-null image under key [5]. -/
def w9 : World :=
  { cache := { entries := [([5], ⟨1, 1, [9]⟩)], maxCost := 200 }, pending := [], resps := []
    enqueued := [], cacheWrites := [], finishedEvents := [], callbacks := [] }

/-- Witness for C9 on a one-entry cache and an absent key. -/
theorem c9_cache_miss_interface_witness :
    (∀ e ∈ w9.cache.entries, e.2 ≠ nullQImage) ∧
    hasCachedImageW [7] w9 = false ∧
    getCachedImageW [7] w9 = (nullQImage, w9) :=
  ⟨by decide, by decide, (c9_cache_miss_interface [7] w9 (by decide)).1 (by decide)⟩

/-! ## Percent encoding and token parsing lemmas (for C10) -/

theorem takeWhile_eq_self_of_all {α : Type} (p : α → Bool) (l : List α)
    (h : ∀ a ∈ l, p a = true) : l.takeWhile p = l := by
  induction l with
  | nil => rfl
  | cons a t ih =>
    simp [List.takeWhile_cons, h a (List.mem_cons_self a t),
      ih (fun x hx => h x (List.mem_cons_of_mem a hx))]

theorem hexDigit_spec (n : Nat) (hn : n < 16) :
    isHexDigitB (hexDigit n) = true ∧ hexVal (hexDigit n) = n ∧
    hexDigit n ≠ 47 ∧ hexDigit n ≠ 124 ∧ hexDigit n ≠ 37 := by
  interval_cases n <;> exact ⟨by decide, by decide, by decide, by decide, by decide⟩

theorem isUnreserved_ne (b : Nat) (h : isUnreserved b = true) :
    b ≠ 37 ∧ b ≠ 47 ∧ b ≠ 124 := by
  refine ⟨?_, ?_, ?_⟩ <;> intro hb <;> subst hb <;> exact absurd h (by decide)

theorem percentEncode_no_sep (l : QStr) (hl : ∀ b ∈ l, b < 256) :
    ∀ c ∈ percentEncode l, c ≠ 47 ∧ c ≠ 124 := by
  induction l with
  | nil => intro c hc; simp [percentEncode] at hc
  | cons b rest ih =>
    intro c hc
    have hb : b < 256 := hl b (by simp)
    have hrest : ∀ x ∈ rest, x < 256 := fun x hx => hl x (by simp [hx])
    have hdiv : b / 16 < 16 := by omega
    have hmod : b % 16 < 16 := Nat.mod_lt b (by omega)
    simp only [percentEncode, List.mem_append] at hc
    rcases hc with hc | hc
    · by_cases hu : isUnreserved b = true
      · rw [if_pos hu] at hc
        have hbc : c = b := by simpa using hc
        subst hbc
        exact ⟨(isUnreserved_ne c hu).2.1, (isUnreserved_ne c hu).2.2⟩
      · rw [if_neg hu] at hc
        simp only [List.mem_cons, List.mem_singleton] at hc
        rcases hc with hc | hc | hc
        · subst hc; exact ⟨by decide, by decide⟩
        · subst hc
          exact ⟨(hexDigit_spec _ hdiv).2.2.1, (hexDigit_spec _ hdiv).2.2.2.1⟩
        · simp at hc
          subst hc
          exact ⟨(hexDigit_spec _ hmod).2.2.1, (hexDigit_spec _ hmod).2.2.2.1⟩
    · exact ih hrest c hc

theorem percentDecode_cons_ne37 (c : Nat) (l : QStr) (hc : c ≠ 37) :
    percentDecode (c :: l) = c :: percentDecode l := by
  cases l with
  | nil => simp [percentDecode]
  | cons a t =>
    cases t with
    | nil => simp [percentDecode]
    | cons b2 t2 =>
      have hcb : (c == 37) = false := beq_eq_false_iff_ne.mpr hc
      simp [percentDecode, hcb]

theorem percentDecode_triple (a b : Nat) (l : QStr)
    (ha : isHexDigitB a = true) (hb : isHexDigitB b = true) :
    percentDecode (37 :: a :: b :: l) = (hexVal a * 16 + hexVal b) :: percentDecode l := by
  simp [percentDecode, ha, hb]

/-- Percent decoding inverts percent encoding on byte strings. -/
theorem percentDecode_percentEncode (l : QStr) (hl : ∀ b ∈ l, b < 256) :
    percentDecode (percentEncode l) = l := by
  induction l with
  | nil => rfl
  | cons b rest ih =>
    have hb : b < 256 := hl b (by simp)
    have hrest : ∀ x ∈ rest, x < 256 := fun x hx => hl x (by simp [hx])
    have hdiv : b / 16 < 16 := by omega
    have hmod : b % 16 < 16 := Nat.mod_lt b (by omega)
    by_cases hu : isUnreserved b = true
    · have hne : b ≠ 37 := (isUnreserved_ne b hu).1
      simp only [percentEncode, if_pos hu, List.singleton_append]
      rw [percentDecode_cons_ne37 b _ hne, ih hrest]
    · simp only [percentEncode, if_neg hu, List.cons_append, List.nil_append]
      rw [percentDecode_triple _ _ _ (hexDigit_spec _ hdiv).1 (hexDigit_spec _ hmod).1,
        (hexDigit_spec _ hdiv).2.1, (hexDigit_spec _ hmod).2.1, ih hrest]
      congr 1
      omega

/-- C10 counterexample: with an identity that itself contains a pipe byte,
    the parse splits at the first pipe, so neither the identity nor the
    locator round-trips. -/
theorem c10_counterexample :
    parseImageId (qstr "a|b" ++ [124] ++ percentEncode (qstr "c") ++ [47] ++ qstr "s")
      ≠ (qstr "a|b", qstr "c", qstr "s") := by
  decide

/-- C10 amended: the parse in requestImageResponse recovers the original
    identity, locator and size from the token identity ++ pipe ++
    percent-encoded locator ++ slash ++ size, provided the identity contains
    no slash and no pipe byte, the size contains no slash byte, and the
    locator is a byte string. -/
theorem c10_parse_roundtrip (identity locator size : QStr)
    (hid47 : 47 ∉ identity) (hid124 : 124 ∉ identity) (hsz47 : 47 ∉ size)
    (hloc : ∀ b ∈ locator, b < 256) :
    parseImageId (identity ++ [124] ++ percentEncode locator ++ [47] ++ size)
      = (identity, locator, size) := by
  have henc := percentEncode_no_sep locator hloc
  have hassoc : identity ++ [124] ++ percentEncode locator ++ [47] ++ size
      = (identity ++ [124] ++ percentEncode locator) ++ (47 :: size) := by
    simp [List.append_assoc]
  have hall47 : ∀ c ∈ identity ++ [124] ++ percentEncode locator,
      (!(c == 47)) = true := by
    intro c hc
    simp only [List.mem_append] at hc
    have hcne : c ≠ 47 := by
      rcases hc with (hc | hc) | hc
      · exact fun hh => hid47 (hh ▸ hc)
      · simp at hc; omega
      · exact (henc c hc).1
    simp [hcne]
  have htake : (identity ++ [124] ++ percentEncode locator ++ [47] ++ size).takeWhile
      (fun c => !(c == 47)) = identity ++ [124] ++ percentEncode locator := by
    rw [hassoc, List.takeWhile_append_of_pos hall47]
    simp [List.takeWhile]
  have hdrop : (identity ++ [124] ++ percentEncode locator ++ [47] ++ size).dropWhile
      (fun c => !(c == 47)) = 47 :: size := by
    rw [hassoc, List.dropWhile_append_of_pos hall47]
    simp [List.dropWhile]
  have hszt : size.takeWhile (fun c => !(c == 47)) = size := by
    apply takeWhile_eq_self_of_all
    intro c hc
    have : c ≠ 47 := fun hh => hsz47 (hh ▸ hc)
    simp [this]
  have hmem124 : (identity ++ [124] ++ percentEncode locator).contains 124 = true := by
    have : (124 : Nat) ∈ identity ++ [124] ++ percentEncode locator := by simp
    simpa [List.elem_iff] using this
  have hallid : ∀ c ∈ identity, (!(c == 124)) = true := by
    intro c hc
    have : c ≠ 124 := fun hh => hid124 (hh ▸ hc)
    simp [this]
  have htake124 : (identity ++ [124] ++ percentEncode locator).takeWhile
      (fun c => !(c == 124)) = identity := by
    rw [List.append_assoc, List.takeWhile_append_of_pos hallid]
    simp [List.takeWhile]
  have hdrop124 : (identity ++ [124] ++ percentEncode locator).dropWhile
      (fun c => !(c == 124)) = 124 :: percentEncode locator := by
    rw [List.append_assoc, List.dropWhile_append_of_pos hallid]
    simp [List.dropWhile]
  unfold parseImageId
  simp only [htake, hdrop, hmem124, if_pos, htake124, hdrop124, List.tail_cons, hszt]
  rw [percentDecode_percentEncode locator hloc]

/-- Witness for the amended C10 with a locator needing escaping (a space). -/
theorem c10_parse_roundtrip_witness :
    ((47 ∉ ([97] : QStr)) ∧ (124 ∉ ([97] : QStr)) ∧ (47 ∉ ([115] : QStr))
      ∧ (∀ b ∈ ([32, 99] : QStr), b < 256)) ∧
    parseImageId ([97] ++ [124] ++ percentEncode [32, 99] ++ [47] ++ [115])
      = ([97], [32, 99], [115]) := by
  refine ⟨⟨by decide, by decide, by decide, by decide⟩, ?_⟩
  exact c10_parse_roundtrip [97] [32, 99] [115] (by decide) (by decide) (by decide) (by decide)

end PhotoWall
